import Mathlib

/-
Verification of the curve-flattening engine of the defcon repository
(Lib/defcon/tools/booleanOperations/flatten.py).

The engine ("FlattenPen", a fontTools BasePen subclass) consumes an outline
command stream (moveTo / lineTo / curveTo / qCurveTo / closePath / endPath /
addComponent) and produces a list of Contours, each a list of Segments
carrying both the original (pre-transform) control points and the flattened
(scaled, rounded-to-integer) polyline points.

Modelling conventions:
* Original coordinates are modelled as exact rationals (ℚ); the Python code
  computes with IEEE doubles, which this development idealizes as exact
  arithmetic.  Flattened coordinates are integers (ℤ), as in the source
  (int(round(...))).
* Python 2 round() rounds half away from zero; `pyRound` models
  int(round(x)) faithfully.
* math.sqrt forces the arc-length estimate into ℝ; everything downstream of
  it (the subdivision step count) is therefore a noncomputable ℤ, while the
  rest of the engine stays computable.
* Python exceptions (IndexError from contours[-1] on an empty list, the
  TypeError raised by the unbound-method call in _qCurveToOne) are modelled
  by `Option`: `none` means the call raised and no state is produced.
* fontTools' BasePen bookkeeping (its private current point) never influences
  the behaviour modelled here: curveTo with exactly three points dispatches
  straight to _curveToOne, qCurveTo with a single off-curve point dispatches
  straight to _qCurveToOne, and closePath/endPath dispatch to
  _closePath/_endPath.
-/

namespace Flatten

/-- Original (pre-transform) coordinates, as received from the caller. -/
abbrev Point : Type := ℚ × ℚ

/-- Flattened coordinates: integers, as produced by _prepPoint. -/
abbrev IPoint : Type := ℤ × ℤ

/-- Python 2 `int(round(x))`: round to nearest integer, ties away from zero.
(`round` already returns an integral float, so the outer `int` is exact.) -/
def pyRound {α : Type} [LinearOrderedField α] [FloorRing α] (x : α) : ℤ :=
  if 0 ≤ x then ⌊x + 1 / 2⌋ else -⌊-x + 1 / 2⌋

/-- The `type` string stored on a Segment: "move", "line", "curve", "qcurve". -/
inductive SegmentType : Type
| move
| line
| curve
| qcurve
deriving DecidableEq

/-- The Segment object of flatten.py: a segment type together with the
original control points and the flattened integer points.  (The source also
initializes a `final` attribute to None; it is never touched in this module
and is omitted.) -/
structure Segment : Type where
  type : SegmentType
  original : List Point
  flat : List IPoint
deriving DecidableEq

/-- A Contour is a list of Segments (the source's Contour subclasses list). -/
abbrev Contour : Type := List Segment

/-- Contour._get_flattened: the concatenation of all segments' flat points. -/
def Contour.flattened (c : Contour) : List IPoint :=
  (c.map Segment.flat).flatten

/-- Contour._get_original: the (type, original points) view of a contour. -/
def Contour.originalView (c : Contour) : List (SegmentType × List Point) :=
  c.map fun seg => (seg.type, seg.original)

/-- The mutable state of a FlattenPen instance: configuration (scale,
approximateSegmentLength), the transient _qCurveConversion slot, and the
contours built so far. -/
structure PenState : Type where
  scale : ℚ
  approximateSegmentLength : ℚ
  qCurveConversion : Option (Point × Point)
  contours : List Contour
deriving DecidableEq

/-- FlattenPen.__init__(scale, approximateSegmentLength). -/
def initState (scale approximateSegmentLength : ℚ) : PenState :=
  { scale := scale
    approximateSegmentLength := approximateSegmentLength
    qCurveConversion := none
    contours := [] }

/-- _prepPoint: scale both coordinates, then int(round(...)) each. -/
def prepPoint (scale : ℚ) (pt : Point) : IPoint :=
  (pyRound (pt.1 * scale), pyRound (pt.2 * scale))

/-- _mid: the midpoint of two points. -/
def mid (p q : Point) : Point :=
  (1 / 2 * (p.1 + q.1), 1 / 2 * (p.2 + q.2))

/-- _getCubicPoint: evaluate the cubic Bézier with controls pt0..pt3 at t.
Exact special cases at t = 0, 1, 1/2 (the latter by De Casteljau midpoints),
and the expanded polynomial form otherwise, exactly as in the source. -/
def getCubicPoint (t : ℚ) (pt0 pt1 pt2 pt3 : Point) : Point :=
  if t = 0 then pt0
  else if t = 1 then pt3
  else if t = 1 / 2 then
    let a := mid pt0 pt1
    let b := mid pt1 pt2
    let c := mid pt2 pt3
    let d := mid a b
    let e := mid b c
    mid d e
  else
    let cx := (pt1.1 - pt0.1) * 3
    let cy := (pt1.2 - pt0.2) * 3
    let bx := (pt2.1 - pt1.1) * 3 - cx
    let by' := (pt2.2 - pt1.2) * 3 - cy
    let ax := pt3.1 - pt0.1 - cx - bx
    let ay := pt3.2 - pt0.2 - cy - by'
    (ax * t ^ 3 + bx * t ^ 2 + cx * t + pt0.1,
     ay * t ^ 3 + by' * t ^ 2 + cy * t + pt0.2)

/-- distance: Euclidean distance, math.sqrt of the sum of squared
coordinate differences (the one place real numbers enter the model). -/
noncomputable def distance (pt1 pt2 : Point) : ℝ :=
  Real.sqrt (((pt1.1 - pt2.1 : ℚ) : ℝ) ^ 2 + ((pt1.2 - pt2.2 : ℚ) : ℝ) ^ 2)

/-- The summation loop of _estimateCubicCurveLength: the sum of the
distances between consecutive points of the sample list. -/
noncomputable def chordLengthSum : List Point → ℝ
  | a :: b :: rest => distance a b + chordLengthSum (b :: rest)
  | _ => 0

/-- _estimateCubicCurveLength: sample the cubic at t = i * (1/precision) for
i = 0..precision and sum the chord lengths.  The source's `precision`
parameter defaults to 10 and the only caller uses the default; it is passed
explicitly here. -/
noncomputable def estimateCubicCurveLength
    (pt0 pt1 pt2 pt3 : Point) (precision : ℕ) : ℝ :=
  chordLengthSum ((List.range (precision + 1)).map fun i : ℕ =>
    getCubicPoint ((i : ℚ) * (1 / (precision : ℚ))) pt0 pt1 pt2 pt3)

/-- self.contours[-1][-1].original[-1]: the last original point of the last
segment of the last contour; `none` models the IndexError raised when any of
the three lists is empty. -/
def currentOriginal (s : PenState) : Option Point :=
  match s.contours.getLast? with
  | none => none
  | some c =>
    match c.getLast? with
    | none => none
    | some seg => seg.original.getLast?

/-- self.contours[-1].addSegment(...): append a segment to the last contour;
`none` models the IndexError when there is no contour yet. -/
def addSegmentToLast (s : PenState) (seg : Segment) : Option PenState :=
  match s.contours.getLast? with
  | none => none
  | some c => some { s with contours := s.contours.dropLast ++ [c ++ [seg]] }

/-- The flattening loop of _curveToOne: for i = 1..maxSteps, sample the cubic
at t = i * (1.0 / maxSteps) and transform via _prepPoint, in order. -/
def curveFlat (scale : ℚ) (cp pt1 pt2 pt3 : Point) (maxSteps : ℤ) : List IPoint :=
  (List.range maxSteps.toNat).map fun i : ℕ =>
    prepPoint scale
      (getCubicPoint (((i : ℚ) + 1) * (1 / (maxSteps : ℚ))) cp pt1 pt2 pt3)

namespace FlattenPen

/-- FlattenPen._moveTo: start a new contour holding a single move segment. -/
def moveTo (s : PenState) (pt : Point) : PenState :=
  { s with contours :=
      s.contours ++ [[⟨SegmentType.move, [pt], [prepPoint s.scale pt]⟩]] }

/-- FlattenPen._lineTo: no-op if pt equals the last original point of the
active contour, otherwise append a line segment. -/
def lineTo (s : PenState) (pt : Point) : Option PenState :=
  match currentOriginal s with
  | none => none
  | some currentPoint =>
    if pt = currentPoint then some s
    else addSegmentToLast s ⟨SegmentType.line, [pt], [prepPoint s.scale pt]⟩

/-- FlattenPen._curveToOne: collapse a false curve to a line, estimate the
arc length to pick maxSteps = round(length / approximateSegmentLength),
collapse to a line when maxSteps < 1, and otherwise emit a curve (or, when
_qCurveConversion is set, qcurve) segment whose flat list holds the
transformed samples at t = i * (1/maxSteps) for i = 1..maxSteps. -/
noncomputable def curveToOne (s : PenState) (pt1 pt2 pt3 : Point) :
    Option PenState :=
  match currentOriginal s with
  | none => none
  | some currentPoint =>
    if pt1 = currentPoint ∧ pt2 = pt3 then
      lineTo s pt3
    else
      let maxSteps : ℤ :=
        pyRound (estimateCubicCurveLength currentPoint pt1 pt2 pt3 10 /
          (s.approximateSegmentLength : ℝ))
      if maxSteps < 1 then
        lineTo s pt3
      else
        match s.qCurveConversion with
        | some (q1, q2) =>
            addSegmentToLast s
              ⟨SegmentType.qcurve, [q1, q2], curveFlat s.scale currentPoint pt1 pt2 pt3 maxSteps⟩
        | none =>
            addSegmentToLast s
              ⟨SegmentType.curve, [pt1, pt2, pt3], curveFlat s.scale currentPoint pt1 pt2 pt3 maxSteps⟩

/-- FlattenPen._qCurveToOne: the source sets _qCurveConversion = [pt1, pt2]
and then executes `BasePen._qCurveToOne(pt1, pt2)` — an unbound-method call
that omits `self`, which Python rejects with a TypeError before any segment
or conversion work happens; the exception propagates to the caller.  The
call is modelled as raising (`none`). -/
def qCurveToOne (_s : PenState) (_pt1 _pt2 : Point) : Option PenState :=
  none

/-- FlattenPen._endPath: if the first flattened point of the active contour
equals its last flattened point, delete that last flattened point from the
last segment's flat list (the segment itself stays). -/
def endPath (s : PenState) : Option PenState :=
  match s.contours.getLast? with
  | none => none
  | some c =>
    match c.head? with
    | none => none
    | some firstSeg =>
      match firstSeg.flat.head? with
      | none => none
      | some firstPoint =>
        match c.getLast? with
        | none => none
        | some lastSeg =>
          match lastSeg.flat.getLast? with
          | none => none
          | some lastPoint =>
            if firstPoint = lastPoint then
              some { s with contours := s.contours.dropLast ++
                [c.dropLast ++ [{ lastSeg with flat := lastSeg.flat.dropLast }]] }
            else some s

/-- FlattenPen._closePath: lineTo the first original point of the active
contour, then endPath. -/
def closePath (s : PenState) : Option PenState :=
  match s.contours.getLast? with
  | none => none
  | some c =>
    match c.head? with
    | none => none
    | some firstSeg =>
      match firstSeg.original.getLast? with
      | none => none
      | some firstPoint =>
        match lineTo s firstPoint with
        | none => none
        | some s' => endPath s'

end FlattenPen

/-- One outline command of the pen protocol, as received by FlattenPen.
curveTo carries exactly three control points and qCurveTo a single
off-curve/on-curve pair, the forms the upstream adapter delivers. -/
inductive Command : Type
| moveTo (pt : Point)
| lineTo (pt : Point)
| curveTo (pt1 pt2 pt3 : Point)
| qCurveTo (pt1 pt2 : Point)
| closePath
| endPath
| addComponent
deriving DecidableEq

/-- Dispatch one command to the corresponding FlattenPen method.
addComponent is an explicit no-op in the source. -/
noncomputable def step (s : PenState) : Command → Option PenState
  | Command.moveTo pt => some (FlattenPen.moveTo s pt)
  | Command.lineTo pt => FlattenPen.lineTo s pt
  | Command.curveTo p1 p2 p3 => FlattenPen.curveToOne s p1 p2 p3
  | Command.qCurveTo p1 p2 => FlattenPen.qCurveToOne s p1 p2
  | Command.closePath => FlattenPen.closePath s
  | Command.endPath => FlattenPen.endPath s
  | Command.addComponent => some s

/-- Run a whole command stream; `none` as soon as any command raises. -/
noncomputable def processStream (cmds : List Command) (s : PenState) :
    Option PenState :=
  match cmds with
  | [] => some s
  | c :: rest =>
    match step s c with
    | none => none
    | some s' => processStream rest s'

/-- The well-formedness automaton on command streams: Move only opens a
closed contour, Line/Curve/QCurve only extend an open one, Close/End only
finalize an open one, addComponent is allowed anywhere. -/
def wfStep (opened : Bool) : Command → Option Bool
  | Command.moveTo _ => if opened then none else some true
  | Command.lineTo _ => if opened then some true else none
  | Command.curveTo _ _ _ => if opened then some true else none
  | Command.qCurveTo _ _ => if opened then some true else none
  | Command.closePath => if opened then some false else none
  | Command.endPath => if opened then some false else none
  | Command.addComponent => some opened

/-- Run the well-formedness automaton. -/
def wfRun (cmds : List Command) (b : Bool) : Option Bool :=
  match cmds with
  | [] => some b
  | c :: rest =>
    match wfStep b c with
    | none => none
    | some b' => wfRun rest b'

/-- A command stream is well-formed when the automaton accepts it from the
initial (closed) state.  This is prefix-closed: every prefix of a
well-formed stream is well-formed. -/
def wellFormed (cmds : List Command) : Bool :=
  (wfRun cmds false).isSome

/-! ### Unfolding equations for processStream -/

theorem processStream_nil (s : PenState) : processStream [] s = some s :=
  rfl

theorem processStream_cons (c : Command) (rest : List Command) (s : PenState) :
    processStream (c :: rest) s =
      match step s c with
      | none => none
      | some s' => processStream rest s' :=
  rfl

theorem processStream_cons_of_step (c : Command) (rest : List Command)
    (s s' : PenState) (h : step s c = some s') :
    processStream (c :: rest) s = processStream rest s' := by
  rw [processStream_cons, h]

theorem processStream_cons_of_none (c : Command) (rest : List Command)
    (s : PenState) (h : step s c = none) :
    processStream (c :: rest) s = none := by
  rw [processStream_cons, h]

/-! ### Basic lemmas about the numeric helpers -/

theorem pyRound_of_nonneg {α : Type} [LinearOrderedField α] [FloorRing α]
    {x : α} (h : 0 ≤ x) : pyRound x = ⌊x + 1 / 2⌋ :=
  if_pos h

theorem pyRound_mono_of_nonneg {α : Type} [LinearOrderedField α] [FloorRing α]
    {x y : α} (hx : 0 ≤ x) (hxy : x ≤ y) : pyRound x ≤ pyRound y := by
  rw [pyRound_of_nonneg hx, pyRound_of_nonneg (hx.trans hxy)]
  exact Int.floor_mono (by linarith)

theorem chordLengthSum_nonneg (l : List Point) : 0 ≤ chordLengthSum l := by
  induction l with
  | nil => simp [chordLengthSum]
  | cons a t ih =>
    cases t with
    | nil => simp [chordLengthSum]
    | cons b r => exact add_nonneg (Real.sqrt_nonneg _) ih

theorem estimateCubicCurveLength_nonneg (p0 p1 p2 p3 : Point) (n : ℕ) :
    0 ≤ estimateCubicCurveLength p0 p1 p2 p3 n :=
  chordLengthSum_nonneg _

theorem getCubicPoint_zero (p0 p1 p2 p3 : Point) :
    getCubicPoint 0 p0 p1 p2 p3 = p0 := by
  simp [getCubicPoint]

theorem getCubicPoint_one (p0 p1 p2 p3 : Point) :
    getCubicPoint 1 p0 p1 p2 p3 = p3 := by
  norm_num [getCubicPoint]

/-! ### Lemmas about lineTo -/

theorem lineTo_self (s : PenState) (pt : Point)
    (h : currentOriginal s = some pt) : FlattenPen.lineTo s pt = some s := by
  simp [FlattenPen.lineTo, h]

theorem currentOriginal_after_lineTo (s s' : PenState) (pt : Point)
    (h : FlattenPen.lineTo s pt = some s') : currentOriginal s' = some pt := by
  cases hc : currentOriginal s with
  | none => simp [FlattenPen.lineTo, hc] at h
  | some cp =>
    by_cases hpt : pt = cp
    · rw [FlattenPen.lineTo, hc] at h
      simp only [if_pos hpt, Option.some.injEq] at h
      rw [← h, hc, hpt]
    · rw [FlattenPen.lineTo, hc] at h
      simp only [if_neg hpt, addSegmentToLast] at h
      cases hg : s.contours.getLast? with
      | none => rw [hg] at h; exact absurd h (by simp)
      | some c =>
        rw [hg] at h
        simp only [Option.some.injEq] at h
        rw [← h]
        simp [currentOriginal, List.getLast?_concat]

theorem lineTo_twice (s s' : PenState) (pt : Point)
    (h : FlattenPen.lineTo s pt = some s') : FlattenPen.lineTo s' pt = some s' :=
  lineTo_self s' pt (currentOriginal_after_lineTo s s' pt h)

/-! ### Demo states shared by several witnesses -/

/-- The state after moveTo(0,0) from a fresh pen with scale 1 and
approximateSegmentLength 5. -/
def demoState : PenState :=
  FlattenPen.moveTo (initState 1 5) (0, 0)

/-- The state after moveTo(0,0); lineTo(5,5) on demoState, written out. -/
def demoAfterLine : PenState :=
  { scale := 1, approximateSegmentLength := 5, qCurveConversion := none,
    contours := [[⟨SegmentType.move, [(0, 0)], [prepPoint 1 (0, 0)]⟩,
                  ⟨SegmentType.line, [(5, 5)], [prepPoint 1 (5, 5)]⟩]] }

def demoMoveSeg : Segment := ⟨SegmentType.move, [(0, 0)], [(0, 0)]⟩

def demoLastSeg : Segment := ⟨SegmentType.line, [(0, 0)], [(0, 0)]⟩

/-- The contour of moveTo(0,0); lineTo(10,0); lineTo(10,10); lineTo(0,0),
just before the final endPath of a closePath. -/
def demoClosedContour : Contour :=
  [demoMoveSeg,
   ⟨SegmentType.line, [(10, 0)], [(10, 0)]⟩,
   ⟨SegmentType.line, [(10, 10)], [(10, 10)]⟩,
   demoLastSeg]

def demoPreEndState : PenState :=
  { scale := 1, approximateSegmentLength := 5, qCurveConversion := none,
    contours := [demoClosedContour] }

/-! ### Claim theorems (first batch) -/

/-- Claim C7: for every set of control points, the cubic evaluator applied at
parameter t = 0 returns exactly p0 and at t = 1 returns exactly p3 (the
source's explicit special cases return the control points themselves, so
equality is exact, not approximate). -/
theorem cubicEvaluator_exact_endpoints (p0 p1 p2 p3 : Point) :
    getCubicPoint 0 p0 p1 p2 p3 = p0 ∧ getCubicPoint 1 p0 p1 p2 p3 = p3 :=
  ⟨getCubicPoint_zero p0 p1 p2 p3, getCubicPoint_one p0 p1 p2 p3⟩

/-- Claim C8: the point transform is the pure function
pt ↦ (round(pt.x * scale), round(pt.y * scale)) into the integers, and with
scale = 2 the stream moveTo(0,0); lineTo(5,5) yields the flat points
[(0,0), (10,10)]. -/
theorem pointTransform_spec :
    (∀ (scale : ℚ) (pt : Point),
      prepPoint scale pt = (pyRound (pt.1 * scale), pyRound (pt.2 * scale))) ∧
    (processStream [Command.moveTo (0, 0), Command.lineTo (5, 5)]
        (initState 2 5)).map (fun s => s.contours.map Contour.flattened) =
      some [[(0, 0), (10, 10)]] :=
  ⟨fun _ _ => rfl, by
    norm_num [processStream, step, FlattenPen.moveTo, FlattenPen.lineTo,
      currentOriginal, addSegmentToLast, initState, prepPoint, pyRound,
      Contour.flattened, Prod.ext_iff]⟩

/-- Claim C5: a lineTo whose target equals the last original point of the
active contour is a no-op (the state is returned unchanged, no segment is
emitted), and consequently a stream containing such a redundant repeated
lineTo produces exactly the same result as the stream without it. -/
theorem lineTo_redundant (s : PenState) (pt : Point)
    (h : currentOriginal s = some pt) :
    FlattenPen.lineTo s pt = some s ∧
    ∀ (cmds1 cmds2 : List Command) (s0 : PenState),
      processStream (cmds1 ++ Command.lineTo pt :: Command.lineTo pt :: cmds2) s0 =
        processStream (cmds1 ++ Command.lineTo pt :: cmds2) s0 := by
  refine ⟨lineTo_self s pt h, ?_⟩
  intro cmds1 cmds2 s0
  induction cmds1 generalizing s0 with
  | nil =>
    simp only [List.nil_append]
    cases hstep : step s0 (Command.lineTo pt) with
    | none =>
      rw [processStream_cons_of_none _ _ _ hstep,
        processStream_cons_of_none _ _ _ hstep]
    | some s1 =>
      have h2 : step s1 (Command.lineTo pt) = some s1 :=
        lineTo_twice s0 s1 pt hstep
      rw [processStream_cons_of_step _ _ _ _ hstep,
        processStream_cons_of_step _ _ _ _ hstep,
        processStream_cons_of_step _ _ _ _ h2]
  | cons c rest ih =>
    simp only [List.cons_append]
    cases hstep : step s0 c with
    | none =>
      rw [processStream_cons_of_none _ _ _ hstep,
        processStream_cons_of_none _ _ _ hstep]
    | some s1 =>
      rw [processStream_cons_of_step _ _ _ _ hstep,
        processStream_cons_of_step _ _ _ _ hstep]
      exact ih s1

/-- Witness for Claim C5: a redundant lineTo(0,0) right after moveTo(0,0). -/
theorem lineTo_redundant_witness :
    currentOriginal demoState = some (0, 0) ∧
    FlattenPen.lineTo demoState (0, 0) = some demoState ∧
    processStream ([] ++ Command.lineTo (0, 0) :: Command.lineTo (0, 0) :: [])
        demoState =
      processStream ([] ++ Command.lineTo (0, 0) :: []) demoState :=
  ⟨rfl, (lineTo_redundant demoState (0, 0) rfl).1,
   (lineTo_redundant demoState (0, 0) rfl).2 [] [] demoState⟩

/-- Claim C9: any Line, Curve, Close or End command issued before any Move
has opened a contour raises (IndexError on the empty contour list), so the
whole run fails and no segment or contour is produced. -/
theorem out_of_order_raises (s : PenState) (h : s.contours = [])
    (pt pt1 pt2 pt3 : Point) (rest : List Command) :
    processStream (Command.lineTo pt :: rest) s = none ∧
    processStream (Command.curveTo pt1 pt2 pt3 :: rest) s = none ∧
    processStream (Command.closePath :: rest) s = none ∧
    processStream (Command.endPath :: rest) s = none := by
  have hco : currentOriginal s = none := by simp [currentOriginal, h]
  have hgl : s.contours.getLast? = none := by simp [h]
  refine ⟨?_, ?_, ?_, ?_⟩ <;>
    simp [processStream, step, FlattenPen.lineTo, FlattenPen.curveToOne,
      FlattenPen.closePath, FlattenPen.endPath, hco, hgl]

/-- Witness for Claim C9 at the fresh initial state. -/
theorem out_of_order_raises_witness :
    (initState 1 5).contours = [] ∧
    processStream [Command.lineTo (1, 2)] (initState 1 5) = none ∧
    processStream [Command.curveTo (1, 2) (3, 4) (5, 6)] (initState 1 5) = none ∧
    processStream [Command.closePath] (initState 1 5) = none ∧
    processStream [Command.endPath] (initState 1 5) = none :=
  ⟨rfl,
   (out_of_order_raises _ rfl (1, 2) (1, 2) (3, 4) (5, 6) []).1,
   (out_of_order_raises _ rfl (1, 2) (1, 2) (3, 4) (5, 6) []).2.1,
   (out_of_order_raises _ rfl (1, 2) (1, 2) (3, 4) (5, 6) []).2.2.1,
   (out_of_order_raises _ rfl (1, 2) (1, 2) (3, 4) (5, 6) []).2.2.2⟩

/-! ### Claim C4: the endPath duplicate-point removal -/

/-- Claim C4: on End() (and hence at the end of Close()), if the active
contour's first flattened point equals its last flattened point, exactly
that final flattened point is deleted from the last segment's flat list
while the segment itself is retained (same segment count, flattened polygon
loses exactly its last vertex); otherwise the state is unchanged.
Consequently moveTo(0,0); lineTo(10,0); lineTo(10,10); closePath() flattens
to [(0,0), (10,0), (10,10)]. -/
theorem endPath_dedup (s : PenState) (c : Contour) (f l : Segment)
    (fp lp : IPoint)
    (hc : s.contours.getLast? = some c) (hf : c.head? = some f)
    (hfp : f.flat.head? = some fp) (hl : c.getLast? = some l)
    (hlp : l.flat.getLast? = some lp) :
    (fp = lp →
      FlattenPen.endPath s = some { s with contours := s.contours.dropLast ++
        [c.dropLast ++ [{ l with flat := l.flat.dropLast }]] } ∧
      (c.dropLast ++ [{ l with flat := l.flat.dropLast }]).length = c.length ∧
      Contour.flattened (c.dropLast ++ [{ l with flat := l.flat.dropLast }]) =
        (Contour.flattened c).dropLast) ∧
    (fp ≠ lp → FlattenPen.endPath s = some s) ∧
    (processStream [Command.moveTo (0, 0), Command.lineTo (10, 0),
        Command.lineTo (10, 10), Command.closePath] (initState 1 5)).map
      (fun st => st.contours.map Contour.flattened) =
      some [[(0, 0), (10, 0), (10, 10)]] := by
  have hne : c ≠ [] := by
    intro hcnil; rw [hcnil] at hl; exact absurd hl (by simp)
  have hlf : l.flat ≠ [] := by
    intro hnil; rw [hnil] at hlp; exact absurd hlp (by simp)
  have hdecomp : c.dropLast ++ [l] = c := by
    have h2 : c.getLast? = some (c.getLast hne) :=
      List.getLast?_eq_getLast_of_ne_nil hne
    rw [hl, Option.some.injEq] at h2
    rw [h2]
    exact List.dropLast_append_getLast hne
  refine ⟨fun hfl => ⟨?_, ?_, ?_⟩, fun hfl => ?_, ?_⟩
  · rw [FlattenPen.endPath, hc]
    simp only [hf, hfp, hl, hlp]
    rw [if_pos hfl]
  · have hpos : 0 < c.length := List.length_pos.mpr hne
    simp only [List.length_append, List.length_dropLast, List.length_cons,
      List.length_nil]
    omega
  · have hflc : Contour.flattened c = Contour.flattened c.dropLast ++ l.flat := by
      conv_lhs => rw [← hdecomp]
      simp [Contour.flattened]
    rw [hflc, List.dropLast_append_of_ne_nil _ hlf]
    simp [Contour.flattened]
  · rw [FlattenPen.endPath, hc]
    simp only [hf, hfp, hl, hlp]
    rw [if_neg hfl]
  · norm_num [processStream, step, FlattenPen.moveTo, FlattenPen.lineTo,
      FlattenPen.closePath, FlattenPen.endPath, currentOriginal,
      addSegmentToLast, initState, prepPoint, pyRound, Contour.flattened,
      Prod.ext_iff]

/-- Witness for Claim C4 at the contour produced by
moveTo(0,0); lineTo(10,0); lineTo(10,10); lineTo(0,0). -/
theorem endPath_dedup_witness :
    demoPreEndState.contours.getLast? = some demoClosedContour ∧
    demoClosedContour.head? = some demoMoveSeg ∧
    demoMoveSeg.flat.head? = some ((0 : ℤ), (0 : ℤ)) ∧
    demoClosedContour.getLast? = some demoLastSeg ∧
    demoLastSeg.flat.getLast? = some ((0 : ℤ), (0 : ℤ)) ∧
    (FlattenPen.endPath demoPreEndState = some { demoPreEndState with
        contours := demoPreEndState.contours.dropLast ++
          [demoClosedContour.dropLast ++
            [{ demoLastSeg with flat := demoLastSeg.flat.dropLast }]] } ∧
      (demoClosedContour.dropLast ++
        [{ demoLastSeg with flat := demoLastSeg.flat.dropLast }]).length =
        demoClosedContour.length ∧
      Contour.flattened (demoClosedContour.dropLast ++
        [{ demoLastSeg with flat := demoLastSeg.flat.dropLast }]) =
        (Contour.flattened demoClosedContour).dropLast) :=
  ⟨rfl, rfl, rfl, rfl, rfl,
   (endPath_dedup demoPreEndState demoClosedContour demoMoveSeg demoLastSeg
     (0, 0) (0, 0) rfl rfl rfl rfl rfl).1 rfl⟩

/-! ### Claim C10: frame effect of each command -/

theorem getElem?_dropLast_append {α : Type} (cs : List α) (x : α) (i : ℕ)
    (hi : i + 1 < (cs.dropLast ++ [x]).length) :
    (cs.dropLast ++ [x])[i]? = cs[i]? := by
  have hlen : i < cs.dropLast.length := by
    simp only [List.length_append, List.length_cons, List.length_nil] at hi
    omega
  rw [List.getElem?_append_left hlen, List.dropLast_eq_take, List.getElem?_take]
  rw [List.length_dropLast] at hlen
  rw [if_pos hlen]

/-- All contours other than the last are untouched going from s to s'. -/
def FrameOK (s s' : PenState) : Prop :=
  ∀ i : ℕ, i + 1 < s'.contours.length → s'.contours[i]? = s.contours[i]?

theorem frameOK_refl (s : PenState) : FrameOK s s :=
  fun _ _ => rfl

theorem frameOK_addSegmentToLast (s s' : PenState) (seg : Segment)
    (h : addSegmentToLast s seg = some s') : FrameOK s s' := by
  rw [addSegmentToLast] at h
  split at h
  · exact absurd h (by simp)
  · simp only [Option.some.injEq] at h
    rw [← h]
    intro i hi
    exact getElem?_dropLast_append s.contours _ i hi

theorem frameOK_lineTo (s s' : PenState) (pt : Point)
    (h : FlattenPen.lineTo s pt = some s') : FrameOK s s' := by
  rw [FlattenPen.lineTo] at h
  split at h
  · exact absurd h (by simp)
  · split at h
    · simp only [Option.some.injEq] at h
      rw [← h]; exact frameOK_refl s
    · exact frameOK_addSegmentToLast s s' _ h

theorem frameOK_curveToOne (s s' : PenState) (p1 p2 p3 : Point)
    (h : FlattenPen.curveToOne s p1 p2 p3 = some s') : FrameOK s s' := by
  rw [FlattenPen.curveToOne] at h
  split at h
  · exact absurd h (by simp)
  · split at h
    · exact frameOK_lineTo s s' p3 h
    · simp only [] at h
      split at h
      · exact frameOK_lineTo s s' p3 h
      · split at h
        · exact frameOK_addSegmentToLast s s' _ h
        · exact frameOK_addSegmentToLast s s' _ h

theorem lineTo_contours_length (s s' : PenState) (pt : Point)
    (h : FlattenPen.lineTo s pt = some s') :
    s'.contours.length = s.contours.length := by
  rw [FlattenPen.lineTo] at h
  split at h
  · exact absurd h (by simp)
  · split at h
    · simp only [Option.some.injEq] at h; rw [← h]
    · rw [addSegmentToLast] at h
      split at h
      · exact absurd h (by simp)
      · rename_i c hg
        simp only [Option.some.injEq] at h
        have hne : s.contours ≠ [] := by
          intro hnil; rw [hnil] at hg; exact absurd hg (by simp)
        have hpos : 0 < s.contours.length := List.length_pos.mpr hne
        rw [← h]
        simp only [List.length_append, List.length_dropLast, List.length_cons,
          List.length_nil]
        omega

theorem endPath_contours_length (s s' : PenState)
    (h : FlattenPen.endPath s = some s') :
    s'.contours.length = s.contours.length := by
  rw [FlattenPen.endPath] at h
  split at h
  · exact absurd h (by simp)
  · rename_i c hg
    have hne : s.contours ≠ [] := by
      intro hnil; rw [hnil] at hg; exact absurd hg (by simp)
    have hpos : 0 < s.contours.length := List.length_pos.mpr hne
    split at h
    · exact absurd h (by simp)
    · split at h
      · exact absurd h (by simp)
      · split at h
        · exact absurd h (by simp)
        · split at h
          · exact absurd h (by simp)
          · split at h
            · simp only [Option.some.injEq] at h
              rw [← h]
              simp only [List.length_append, List.length_dropLast,
                List.length_cons, List.length_nil]
              omega
            · simp only [Option.some.injEq] at h; rw [← h]

theorem frameOK_endPath (s s' : PenState)
    (h : FlattenPen.endPath s = some s') : FrameOK s s' := by
  rw [FlattenPen.endPath] at h
  split at h
  · exact absurd h (by simp)
  · split at h
    · exact absurd h (by simp)
    · split at h
      · exact absurd h (by simp)
      · split at h
        · exact absurd h (by simp)
        · split at h
          · exact absurd h (by simp)
          · split at h
            · simp only [Option.some.injEq] at h
              rw [← h]
              intro i hi
              exact getElem?_dropLast_append s.contours _ i hi
            · simp only [Option.some.injEq] at h
              rw [← h]; exact frameOK_refl s

theorem frameOK_closePath (s s' : PenState)
    (h : FlattenPen.closePath s = some s') : FrameOK s s' := by
  rw [FlattenPen.closePath] at h
  split at h
  · exact absurd h (by simp)
  · split at h
    · exact absurd h (by simp)
    · split at h
      · exact absurd h (by simp)
      · split at h
        · exact absurd h (by simp)
        · rename_i s1 hl
          intro i hi
          have hi1 : i + 1 < s1.contours.length := by
            rw [← endPath_contours_length s1 s' h]; exact hi
          rw [frameOK_endPath s1 s' h i hi, frameOK_lineTo s s1 _ hl i hi1]

/-- Claim C10: every command mutates at most the most recently created
contour of the resulting state — every contour at an earlier position is
exactly the contour at the same position before the command — and
addComponent changes nothing at all. -/
theorem command_frame_effect (s s' : PenState) (c : Command)
    (h : step s c = some s') :
    (∀ i : ℕ, i + 1 < s'.contours.length →
      s'.contours[i]? = s.contours[i]?) ∧
    (c = Command.addComponent → s' = s) := by
  constructor
  · cases c with
    | moveTo pt =>
      simp only [step, Option.some.injEq] at h
      rw [← h]
      intro i hi
      rw [FlattenPen.moveTo] at hi ⊢
      simp only [List.length_append, List.length_cons, List.length_nil] at hi
      exact List.getElem?_append_left (by omega)
    | lineTo pt => exact frameOK_lineTo s s' pt h
    | curveTo p1 p2 p3 => exact frameOK_curveToOne s s' p1 p2 p3 h
    | qCurveTo p1 p2 =>
      exact absurd h (by simp [step, FlattenPen.qCurveToOne])
    | closePath => exact frameOK_closePath s s' h
    | endPath => exact frameOK_endPath s s' h
    | addComponent =>
      simp only [step, Option.some.injEq] at h
      rw [← h]; exact frameOK_refl s
  · intro hcmd
    rw [hcmd] at h
    simp only [step, Option.some.injEq] at h
    exact h.symm

/-- Witness for Claim C10: a lineTo on the single-contour demo state. -/
theorem command_frame_effect_witness :
    step demoState (Command.lineTo (5, 5)) = some demoAfterLine ∧
    (∀ i : ℕ, i + 1 < demoAfterLine.contours.length →
      demoAfterLine.contours[i]? = demoState.contours[i]?) ∧
    (Command.lineTo (5, 5) = Command.addComponent →
      demoAfterLine = demoState) :=
  ⟨by norm_num [step, FlattenPen.lineTo, FlattenPen.moveTo, currentOriginal,
      addSegmentToLast, demoState, demoAfterLine, initState, Prod.ext_iff],
   (command_frame_effect demoState demoAfterLine (Command.lineTo (5, 5))
     (by norm_num [step, FlattenPen.lineTo, FlattenPen.moveTo, currentOriginal,
       addSegmentToLast, demoState, demoAfterLine, initState, Prod.ext_iff])).1,
   (command_frame_effect demoState demoAfterLine (Command.lineTo (5, 5))
     (by norm_num [step, FlattenPen.lineTo, FlattenPen.moveTo, currentOriginal,
       addSegmentToLast, demoState, demoAfterLine, initState, Prod.ext_iff])).2⟩

/-- Claim C3 (evaluating the code at the failing input): a qCurveTo inside an
open contour raises instead of emitting a QCurve segment —
FlattenPen._qCurveToOne invokes `BasePen._qCurveToOne(pt1, pt2)`, an
unbound-method call missing `self`, which is a TypeError; the run therefore
produces no output at all. -/
theorem qCurveTo_raises :
    processStream [Command.moveTo (0, 0), Command.qCurveTo (5, 10) (10, 0)]
      (initState 1 5) = none := by
  simp [processStream, step, FlattenPen.qCurveToOne]

/-! ### Claim C2: the first-segment invariant over well-formed streams -/

/-- A segment with nonempty original and flat lists (every segment appended
while a contour is open has this shape). -/
def SegOK (seg : Segment) : Prop :=
  seg.original ≠ [] ∧ seg.flat ≠ []

/-- Shape of the contour being built: nonempty, headed by a Move segment
whose flat list still has its one point, all segments well-stocked. -/
def OpenOK (c : Contour) : Prop :=
  match c with
  | [] => False
  | f :: _ => f.type = SegmentType.move ∧ f.flat.length = 1 ∧
      ∀ seg ∈ c, SegOK seg

/-- Shape of a finished contour: headed by a Move segment whose flat list
has one point, except that a single-segment contour may have had that point
removed by the endPath fix-up. -/
def DoneOK (c : Contour) : Prop :=
  match c with
  | [] => False
  | f :: rest => f.type = SegmentType.move ∧
      (f.flat.length = 1 ∨ (rest = [] ∧ f.flat = []))

/-- The run invariant, indexed by the well-formedness automaton state. -/
def Inv : Bool → PenState → Prop
  | false, s => ∀ c ∈ s.contours, DoneOK c
  | true, s => ∃ cs last, s.contours = cs ++ [last] ∧
      (∀ c ∈ cs, DoneOK c) ∧ OpenOK last

theorem doneOK_of_openOK (c : Contour) (h : OpenOK c) : DoneOK c := by
  cases c with
  | nil => exact h.elim
  | cons f rest => exact ⟨h.1, Or.inl h.2.1⟩

theorem openOK_append (c : Contour) (seg : Segment)
    (h : OpenOK c) (hs : SegOK seg) : OpenOK (c ++ [seg]) := by
  cases c with
  | nil => exact h.elim
  | cons f rest =>
    refine ⟨h.1, h.2.1, ?_⟩
    intro x hx
    rcases List.mem_append.mp hx with h1 | h1
    · exact h.2.2 x h1
    · rw [List.mem_singleton] at h1
      rw [h1]
      exact hs

theorem curveFlat_length (scale : ℚ) (cp p1 p2 p3 : Point) (n : ℤ) :
    (curveFlat scale cp p1 p2 p3 n).length = n.toNat := by
  simp only [curveFlat, List.length_map, List.length_range]

theorem curveFlat_ne_nil (scale : ℚ) (cp p1 p2 p3 : Point) (n : ℤ)
    (hn : 1 ≤ n) : curveFlat scale cp p1 p2 p3 n ≠ [] := by
  intro hnil
  have hl := curveFlat_length scale cp p1 p2 p3 n
  rw [hnil] at hl
  simp only [List.length_nil] at hl
  omega

theorem inv_moveTo (s : PenState) (pt : Point) (h : Inv false s) :
    Inv true (FlattenPen.moveTo s pt) := by
  refine ⟨s.contours, [⟨SegmentType.move, [pt], [prepPoint s.scale pt]⟩],
    rfl, h, rfl, rfl, ?_⟩
  intro seg hs
  rw [List.mem_singleton] at hs
  rw [hs]
  exact ⟨by simp, by simp⟩

theorem inv_addSegmentToLast (s s' : PenState) (seg : Segment)
    (h : Inv true s) (hs : SegOK seg)
    (ha : addSegmentToLast s seg = some s') : Inv true s' := by
  obtain ⟨cs, last, hdecomp, hcs, hopen⟩ := h
  rw [addSegmentToLast] at ha
  split at ha
  · exact absurd ha (by simp)
  · rename_i c hg
    rw [hdecomp, List.getLast?_concat] at hg
    simp only [Option.some.injEq] at hg
    simp only [Option.some.injEq] at ha
    refine ⟨cs, last ++ [seg], ?_, hcs, openOK_append last seg hopen hs⟩
    rw [← ha]
    simp only []
    rw [hdecomp, List.dropLast_concat, ← hg]

theorem inv_lineTo (s s' : PenState) (pt : Point)
    (h : Inv true s) (hl : FlattenPen.lineTo s pt = some s') : Inv true s' := by
  rw [FlattenPen.lineTo] at hl
  split at hl
  · exact absurd hl (by simp)
  · split at hl
    · simp only [Option.some.injEq] at hl
      rw [← hl]; exact h
    · exact inv_addSegmentToLast s s' _ h ⟨by simp, by simp⟩ hl

theorem inv_curveToOne (s s' : PenState) (p1 p2 p3 : Point)
    (h : Inv true s) (hc : FlattenPen.curveToOne s p1 p2 p3 = some s') :
    Inv true s' := by
  rw [FlattenPen.curveToOne] at hc
  split at hc
  · exact absurd hc (by simp)
  · split at hc
    · exact inv_lineTo s s' p3 h hc
    · simp only [] at hc
      split at hc
      · exact inv_lineTo s s' p3 h hc
      · rename_i hsteps
        rw [Int.not_lt] at hsteps
        split at hc
        · exact inv_addSegmentToLast s s' _ h
            ⟨by simp, curveFlat_ne_nil _ _ _ _ _ _ hsteps⟩ hc
        · exact inv_addSegmentToLast s s' _ h
            ⟨by simp, curveFlat_ne_nil _ _ _ _ _ _ hsteps⟩ hc

theorem inv_endPath (s s' : PenState) (h : Inv true s)
    (he : FlattenPen.endPath s = some s') : Inv false s' := by
  obtain ⟨cs, last, hdecomp, hcs, hopen⟩ := h
  rw [FlattenPen.endPath] at he
  split at he
  · exact absurd he (by simp)
  · rename_i c hg
    rw [hdecomp, List.getLast?_concat] at hg
    simp only [Option.some.injEq] at hg
    subst hg
    split at he
    · exact absurd he (by simp)
    · rename_i f hf
      split at he
      · exact absurd he (by simp)
      · rename_i fp hfp
        split at he
        · exact absurd he (by simp)
        · rename_i l hl
          split at he
          · exact absurd he (by simp)
          · rename_i lp hlp
            split at he
            · simp only [Option.some.injEq] at he
              rw [← he]
              intro c' hc'
              simp only [] at hc'
              rw [hdecomp, List.dropLast_concat] at hc'
              rcases List.mem_append.mp hc' with h1 | h1
              · exact hcs c' h1
              · rw [List.mem_singleton] at h1
                subst h1
                cases last with
                | nil => exact hopen.elim
                | cons f0 rest =>
                  cases rest with
                  | nil =>
                    have hl0 : f0 = l := by
                      simpa using hl
                    subst hl0
                    refine ⟨hopen.1, Or.inr ⟨rfl, ?_⟩⟩
                    obtain ⟨p, hp⟩ := List.length_eq_one.mp hopen.2.1
                    simp [hp]
                  | cons r rs =>
                    rw [List.dropLast_cons₂]
                    simp only [List.cons_append]
                    exact ⟨hopen.1, Or.inl hopen.2.1⟩
            · simp only [Option.some.injEq] at he
              rw [← he]
              intro c' hc'
              rw [hdecomp] at hc'
              rcases List.mem_append.mp hc' with h1 | h1
              · exact hcs c' h1
              · rw [List.mem_singleton] at h1
                subst h1
                exact doneOK_of_openOK _ hopen

theorem inv_closePath (s s' : PenState) (h : Inv true s)
    (hc : FlattenPen.closePath s = some s') : Inv false s' := by
  rw [FlattenPen.closePath] at hc
  split at hc
  · exact absurd hc (by simp)
  · split at hc
    · exact absurd hc (by simp)
    · split at hc
      · exact absurd hc (by simp)
      · split at hc
        · exact absurd hc (by simp)
        · rename_i s1 hl
          exact inv_endPath s1 s' (inv_lineTo s s1 _ h hl) hc

theorem wfRun_cons_of_step (c : Command) (rest : List Command) (b b1 : Bool)
    (h : wfStep b c = some b1) : wfRun (c :: rest) b = wfRun rest b1 := by
  rw [show wfRun (c :: rest) b =
    (match wfStep b c with
     | none => none
     | some b' => wfRun rest b') from rfl, h]

theorem wfRun_cons_of_none (c : Command) (rest : List Command) (b : Bool)
    (h : wfStep b c = none) : wfRun (c :: rest) b = none := by
  rw [show wfRun (c :: rest) b =
    (match wfStep b c with
     | none => none
     | some b' => wfRun rest b') from rfl, h]

theorem inv_run (cmds : List Command) : ∀ (b : Bool) (s : PenState),
    Inv b s → ∀ (b' : Bool), wfRun cmds b = some b' →
    ∀ (s' : PenState), processStream cmds s = some s' → Inv b' s' := by
  induction cmds with
  | nil =>
    intro b s hInv b' hwf s' hrun
    simp only [wfRun, Option.some.injEq] at hwf
    simp only [processStream, Option.some.injEq] at hrun
    rw [← hwf, ← hrun]
    exact hInv
  | cons c rest ih =>
    intro b s hInv b' hwf s' hrun
    cases hw : wfStep b c with
    | none => rw [wfRun_cons_of_none _ _ _ hw] at hwf; exact absurd hwf (by simp)
    | some b1 =>
      rw [wfRun_cons_of_step _ _ _ _ hw] at hwf
      cases hs : step s c with
      | none =>
        rw [processStream_cons_of_none _ _ _ hs] at hrun
        exact absurd hrun (by simp)
      | some s1 =>
        rw [processStream_cons_of_step _ _ _ _ hs] at hrun
        refine ih b1 s1 ?_ b' hwf s' hrun
        cases c with
        | moveTo pt =>
          cases b with
          | true => simp [wfStep] at hw
          | false =>
            simp [wfStep] at hw
            simp only [step, Option.some.injEq] at hs
            subst hw
            rw [← hs]
            exact inv_moveTo s pt hInv
        | lineTo pt =>
          cases b with
          | false => simp [wfStep] at hw
          | true =>
            simp [wfStep] at hw
            subst hw
            exact inv_lineTo s s1 pt hInv hs
        | curveTo p1 p2 p3 =>
          cases b with
          | false => simp [wfStep] at hw
          | true =>
            simp [wfStep] at hw
            subst hw
            exact inv_curveToOne s s1 p1 p2 p3 hInv hs
        | qCurveTo p1 p2 =>
          simp [step, FlattenPen.qCurveToOne] at hs
        | closePath =>
          cases b with
          | false => simp [wfStep] at hw
          | true =>
            simp [wfStep] at hw
            subst hw
            exact inv_closePath s s1 hInv hs
        | endPath =>
          cases b with
          | false => simp [wfStep] at hw
          | true =>
            simp [wfStep] at hw
            subst hw
            exact inv_endPath s s1 hInv hs
        | addComponent =>
          simp only [wfStep, Option.some.injEq] at hw
          simp only [step, Option.some.injEq] at hs
          subst hw
          rw [← hs]
          exact hInv

/-- Claim C2 (amended): for every well-formed command stream that runs to
completion, every contour of the output starts with a Move segment, and that
segment's flat list has exactly one point — except that a contour consisting
solely of its Move segment, finalized by Close or End, has its single flat
point removed by the duplicate-point fix-up, leaving the flat list empty.
Since well-formedness is prefix-closed, this covers the state after every
command of a well-formed stream. -/
theorem contours_first_move (cmds : List Command) (sc al : ℚ) (s' : PenState)
    (hwf : wellFormed cmds = true)
    (hrun : processStream cmds (initState sc al) = some s') :
    ∀ c ∈ s'.contours, ∃ f rest, c = f :: rest ∧
      f.type = SegmentType.move ∧
      (f.flat.length = 1 ∨ (rest = [] ∧ f.flat = [])) := by
  rw [wellFormed] at hwf
  obtain ⟨b', hb'⟩ := Option.isSome_iff_exists.mp hwf
  have hInv0 : Inv false (initState sc al) := by
    intro c hc
    simp [initState] at hc
  have hfinal := inv_run cmds false (initState sc al) hInv0 b' hb' s' hrun
  intro c hc
  have hd : DoneOK c := by
    cases b' with
    | false => exact hfinal c hc
    | true =>
      obtain ⟨cs, last, hdec, hcs, hopen⟩ := hfinal
      rw [hdec] at hc
      rcases List.mem_append.mp hc with h1 | h1
      · exact hcs c h1
      · rw [List.mem_singleton] at h1
        subst h1
        exact doneOK_of_openOK _ hopen
  cases c with
  | nil => exact hd.elim
  | cons f rest => exact ⟨f, rest, rfl, hd.1, hd.2⟩

/-- Counterexample to Claim C2 as stated: the well-formed stream
moveTo(0,0); endPath() yields a single contour whose first (and only)
Segment is a Move whose flat list is empty — the endPath duplicate-point
fix-up deleted its only point — not a list with exactly one point. -/
theorem contours_first_move_counterexample :
    wellFormed [Command.moveTo (0, 0), Command.endPath] = true ∧
    processStream [Command.moveTo (0, 0), Command.endPath] (initState 1 5) =
      some { scale := 1, approximateSegmentLength := 5,
             qCurveConversion := none,
             contours := [[⟨SegmentType.move, [(0, 0)], []⟩]] } ∧
    (⟨SegmentType.move, [((0 : ℚ), (0 : ℚ))], []⟩ : Segment).flat.length ≠ 1 := by
  refine ⟨rfl, ?_, by simp⟩
  norm_num [processStream, step, FlattenPen.moveTo, FlattenPen.endPath,
    currentOriginal, addSegmentToLast, initState, prepPoint, pyRound]

/-- The state after moveTo(0,0); lineTo(10,0); closePath(): the closing line
segment's flat point was deleted by the endPath fix-up. -/
def demoAfterClose : PenState :=
  { scale := 1, approximateSegmentLength := 5, qCurveConversion := none,
    contours := [[⟨SegmentType.move, [(0, 0)], [(0, 0)]⟩,
                  ⟨SegmentType.line, [(10, 0)], [(10, 0)]⟩,
                  ⟨SegmentType.line, [(0, 0)], []⟩]] }

/-- Witness for the amended Claim C2 on a closed two-line contour. -/
theorem contours_first_move_witness :
    wellFormed [Command.moveTo (0, 0), Command.lineTo (10, 0),
      Command.closePath] = true ∧
    processStream [Command.moveTo (0, 0), Command.lineTo (10, 0),
      Command.closePath] (initState 1 5) = some demoAfterClose ∧
    (∀ c ∈ demoAfterClose.contours, ∃ f rest, c = f :: rest ∧
      f.type = SegmentType.move ∧
      (f.flat.length = 1 ∨ (rest = [] ∧ f.flat = []))) :=
  ⟨rfl,
   by norm_num [processStream, step, FlattenPen.moveTo, FlattenPen.lineTo,
     FlattenPen.closePath, FlattenPen.endPath, currentOriginal,
     addSegmentToLast, initState, prepPoint, pyRound, demoAfterClose,
     Prod.ext_iff],
   contours_first_move [Command.moveTo (0, 0), Command.lineTo (10, 0),
     Command.closePath] 1 5 demoAfterClose rfl
     (by norm_num [processStream, step, FlattenPen.moveTo, FlattenPen.lineTo,
       FlattenPen.closePath, FlattenPen.endPath, currentOriginal,
       addSegmentToLast, initState, prepPoint, pyRound, demoAfterClose,
       Prod.ext_iff])⟩

/-! ### Claim C6: monotonicity of the step count in approximateSegmentLength -/

/-- Claim C6: for a fixed cubic (fixed current point and control points,
hence a fixed length estimate) and any positive approximateSegmentLength
values S1 ≤ S2, the step count round(L/S) computed with S1 is at least the
one computed with S2. -/
theorem stepCount_mono (pt0 pt1 pt2 pt3 : Point) (S1 S2 : ℚ)
    (h1 : 0 < S1) (h12 : S1 ≤ S2) :
    pyRound (estimateCubicCurveLength pt0 pt1 pt2 pt3 10 / (S2 : ℝ)) ≤
      pyRound (estimateCubicCurveLength pt0 pt1 pt2 pt3 10 / (S1 : ℝ)) := by
  have hL : (0 : ℝ) ≤ estimateCubicCurveLength pt0 pt1 pt2 pt3 10 :=
    estimateCubicCurveLength_nonneg pt0 pt1 pt2 pt3 10
  have h1R : (0 : ℝ) < (S1 : ℝ) := by exact_mod_cast h1
  have h12R : (S1 : ℝ) ≤ (S2 : ℝ) := by exact_mod_cast h12
  have h2R : (0 : ℝ) < (S2 : ℝ) := lt_of_lt_of_le h1R h12R
  apply pyRound_mono_of_nonneg (div_nonneg hL h2R.le)
  gcongr

/-- Witness for Claim C6 on the uniformly parameterized collinear cubic
(0,0), (10,0), (20,0), (30,0) with S1 = 5 and S2 = 10. -/
theorem stepCount_mono_witness :
    (0 : ℚ) < 5 ∧ (5 : ℚ) ≤ 10 ∧
    pyRound (estimateCubicCurveLength (0, 0) (10, 0) (20, 0) (30, 0) 10 /
        ((10 : ℚ) : ℝ)) ≤
      pyRound (estimateCubicCurveLength (0, 0) (10, 0) (20, 0) (30, 0) 10 /
        ((5 : ℚ) : ℝ)) :=
  ⟨by norm_num, by norm_num,
   stepCount_mono (0, 0) (10, 0) (20, 0) (30, 0) 5 10 (by norm_num)
     (by norm_num)⟩

/-! ### Concrete evaluation of the arc-length estimate -/

theorem distance_horiz (a b c : ℚ) :
    distance (a, c) (b, c) = |((a - b : ℚ) : ℝ)| := by
  rw [distance]
  norm_num
  exact Real.sqrt_sq_eq_abs _

/-- The ten chords of the collinear demo cubic have total length 30. -/
theorem demo_estimate :
    estimateCubicCurveLength (0, 0) (10, 0) (20, 0) (30, 0) 10 = 30 := by
  have hs : (List.range (10 + 1)).map (fun i : ℕ =>
      getCubicPoint ((i : ℚ) * (1 / ((10 : ℕ) : ℚ))) (0, 0) (10, 0) (20, 0)
        (30, 0)) =
      [(0, 0), (3, 0), (6, 0), (9, 0), (12, 0), (15, 0), (18, 0), (21, 0),
       (24, 0), (27, 0), (30, 0)] := by
    norm_num [List.range_succ, getCubicPoint, mid, Prod.ext_iff]
  rw [estimateCubicCurveLength, hs]
  simp only [chordLengthSum, distance_horiz]
  norm_num

/-- round(30 / 5) = 6: the demo cubic subdivides into six steps. -/
theorem demo_stepCount :
    pyRound (estimateCubicCurveLength (0, 0) (10, 0) (20, 0) (30, 0) 10 /
      ((5 : ℚ) : ℝ)) = 6 := by
  rw [demo_estimate, pyRound_of_nonneg (by norm_num)]
  norm_num

/-! ### Claim C1: the cubic subdivision rule -/

/-- Claim C1: for a cubic curveTo(p1,p2,p3) that is not a false curve,
issued with no pending quadratic conversion and a positive
approximateSegmentLength S, with n = round(L/S) where L is the arc-length
estimate from the current point cp: if n < 1 the command behaves exactly as
lineTo(p3); otherwise it appends to the active contour a single Curve
segment whose original is [p1,p2,p3] and whose flat list has exactly n
points, the transformed samples at t = i/n for i = 1..n in order, the last
of which is the point transform of p3. -/
theorem curveTo_subdivision (s : PenState) (p1 p2 p3 cp : Point) (n : ℤ)
    (hcp : currentOriginal s = some cp)
    (hconv : s.qCurveConversion = none)
    (_hS : 0 < s.approximateSegmentLength)
    (hfc : ¬(p1 = cp ∧ p2 = p3))
    (hn : n = pyRound (estimateCubicCurveLength cp p1 p2 p3 10 /
      (s.approximateSegmentLength : ℝ))) :
    (n < 1 → FlattenPen.curveToOne s p1 p2 p3 = FlattenPen.lineTo s p3) ∧
    (1 ≤ n → ∀ c, s.contours.getLast? = some c →
      FlattenPen.curveToOne s p1 p2 p3 = some { s with contours :=
        s.contours.dropLast ++
          [c ++ [⟨SegmentType.curve, [p1, p2, p3],
            curveFlat s.scale cp p1 p2 p3 n⟩]] } ∧
      (curveFlat s.scale cp p1 p2 p3 n).length = n.toNat ∧
      curveFlat s.scale cp p1 p2 p3 n = (List.range n.toNat).map
        (fun i : ℕ => prepPoint s.scale
          (getCubicPoint (((i : ℚ) + 1) / (n : ℚ)) cp p1 p2 p3)) ∧
      (curveFlat s.scale cp p1 p2 p3 n).getLast? =
        some (prepPoint s.scale p3)) := by
  constructor
  · intro hlt
    rw [FlattenPen.curveToOne, hcp]
    simp only []
    rw [if_neg hfc, ← hn, if_pos hlt]
  · intro hge c hc
    refine ⟨?_, curveFlat_length _ _ _ _ _ _, ?_, ?_⟩
    · rw [FlattenPen.curveToOne, hcp]
      simp only []
      rw [if_neg hfc, ← hn, if_neg (Int.not_lt.mpr hge), hconv]
      simp only []
      rw [addSegmentToLast, hc]
      simp [hconv]
    · rw [curveFlat]
      refine List.map_congr_left fun i hi => ?_
      rw [mul_one_div]
    · obtain ⟨k, hk⟩ : ∃ k, n.toNat = k + 1 := ⟨n.toNat - 1, by omega⟩
      have hkn : ((k : ℚ) + 1) = (n : ℚ) := by
        have h1 : ((n.toNat : ℕ) : ℤ) = n := Int.toNat_of_nonneg (by omega)
        rw [hk] at h1
        have h2 := congrArg (fun z : ℤ => (z : ℚ)) h1
        push_cast at h2
        exact h2
      have hnz : (n : ℚ) ≠ 0 := by
        exact_mod_cast (by omega : n ≠ 0)
      rw [curveFlat, hk, List.range_succ, List.map_append, List.map_cons,
        List.map_nil, List.getLast?_concat, hkn, mul_one_div, div_self hnz,
        getCubicPoint_one]

/-- Witness for Claim C1: the collinear demo cubic subdivides into exactly
six segments of length five; the flat list is the six samples, ending at the
transform of (30,0). -/
theorem curveTo_subdivision_witness :
    currentOriginal demoState = some (0, 0) ∧
    demoState.qCurveConversion = none ∧
    (0 : ℚ) < demoState.approximateSegmentLength ∧
    ¬(((10, 0) : Point) = (0, 0) ∧ ((20, 0) : Point) = ((30, 0) : Point)) ∧
    ((6 : ℤ) = pyRound (estimateCubicCurveLength (0, 0) (10, 0) (20, 0)
      (30, 0) 10 / (demoState.approximateSegmentLength : ℝ))) ∧
    ((1 : ℤ) ≤ 6 → ∀ c, demoState.contours.getLast? = some c →
      FlattenPen.curveToOne demoState (10, 0) (20, 0) (30, 0) =
        some { demoState with contours := demoState.contours.dropLast ++
          [c ++ [⟨SegmentType.curve, [(10, 0), (20, 0), (30, 0)],
            curveFlat demoState.scale (0, 0) (10, 0) (20, 0) (30, 0) 6⟩]] } ∧
      (curveFlat demoState.scale (0, 0) (10, 0) (20, 0) (30, 0) 6).length =
        (6 : ℤ).toNat ∧
      curveFlat demoState.scale (0, 0) (10, 0) (20, 0) (30, 0) 6 =
        (List.range (6 : ℤ).toNat).map (fun i : ℕ =>
          prepPoint demoState.scale (getCubicPoint (((i : ℚ) + 1) /
            ((6 : ℤ) : ℚ)) (0, 0) (10, 0) (20, 0) (30, 0))) ∧
      (curveFlat demoState.scale (0, 0) (10, 0) (20, 0) (30, 0) 6).getLast? =
        some (prepPoint demoState.scale (30, 0))) ∧
    curveFlat demoState.scale (0, 0) (10, 0) (20, 0) (30, 0) 6 =
      [(5, 0), (10, 0), (15, 0), (20, 0), (25, 0), (30, 0)] :=
  ⟨rfl, rfl, by norm_num [demoState, FlattenPen.moveTo, initState],
   by norm_num [Prod.ext_iff],
   demo_stepCount.symm,
   (curveTo_subdivision demoState (10, 0) (20, 0) (30, 0) (0, 0) 6 rfl rfl
     (by norm_num [demoState, FlattenPen.moveTo, initState])
     (by norm_num [Prod.ext_iff]) demo_stepCount.symm).2,
   by
     have h6 : (6 : ℤ).toNat = 6 := rfl
     norm_num [curveFlat, h6, getCubicPoint, prepPoint, pyRound, mid,
       List.range_succ, Prod.ext_iff, demoState, FlattenPen.moveTo,
       initState]⟩

end Flatten
